import Mathlib

/-!
Shallow embedding of the color-fill animator of rsbsPLUS-nx
(src/source/main.cpp, src/include/vertex.h).

The animator state is the global variables `sphere` (the vertex array),
`changed_indeces` (a std::set of int) and `is_changing_color` (a bool).
One call of the animation part of `sceneRender` (main.cpp lines 265-315)
performs four unrolled recolor blocks; each block, guarded by
`changed_indeces.size() < sizeof(sphere)/sizeof(Vertex)`, draws an index by
rejection sampling over `rand() % 240`, writes the current target color to
that vertex (the source repeats the assignment three times), and inserts the
index into the set.  Only the fourth block has an `else` that clears
`is_changing_color`.

The C library `rand()` is modelled by a list of natural numbers consumed left
to right; a rejection loop that exhausts the list stands for a loop that
never exits (`none`).
-/

/-- A 3-component vector of exact rationals, standing for `glm::vec3`.
The program only ever assigns and compares whole-number component colors,
so rationals model the float components faithfully for these claims. -/
structure Vec3 where
  x : ℚ
  y : ℚ
  z : ℚ
deriving DecidableEq

/-- src/include/vertex.h: a `Vertex` is a position and a color. -/
structure Vertex where
  position : Vec3
  color : Vec3
deriving DecidableEq

/-- Modelled from the spec: `sphere.h` (the static vertex array `sphere`) is
not under src/.  The spec fixes the mesh size at N = 720 vertices
(240 triangles times 3 vertices), matching the draw call
`glDrawArrays(GL_TRIANGLES, 0, 240 * 3)`; this is the value of
`sizeof(sphere) / sizeof(Vertex)` used as the guard in `sceneRender`. -/
def numVertices : ℕ := 720

/-- The mutable global state touched by the animator: the vertex array
`sphere` (indices beyond the array are irrelevant; the program only reads
and writes indices below 720), the recolored-index set `changed_indeces`
(main.cpp line 208), and the flag `is_changing_color` (line 210). -/
structure AnimState where
  sphere : ℕ → Vertex
  changed_indeces : Finset ℕ
  is_changing_color : Bool

/-- One assignment `sphere[i].color = c;`. -/
def setColorAt (m : ℕ → Vertex) (i : ℕ) (c : Vec3) : ℕ → Vertex :=
  fun j => if j = i then { m j with color := c } else m j

/-- The three consecutive identical assignments `sphere[i].color = color;`
that each block of `sceneRender` performs (main.cpp lines 272-274). -/
def recolorVertex (m : ℕ → Vertex) (i : ℕ) (c : Vec3) : ℕ → Vertex :=
  setColorAt (setColorAt (setColorAt m i c) i c) i c

/-- The rejection loop `while (true) { i = rand() % 240; if (not in set)
break; }` (main.cpp lines 267-271), fed by the stream `rs` of `rand()`
values.  `none` means the stream was exhausted with every candidate already
in `s`: for every finite amount of fuel the loop is still running. -/
def draw240 : List ℕ → Finset ℕ → Option (ℕ × List ℕ)
  | [], _ => none
  | r :: rs, s =>
      if r % 240 ∈ s then draw240 rs s else some (r % 240, rs)

/-- A full index draw of one block: the initial `int i = rand() % 240;`
(main.cpp line 266) consumes one `rand()` value whose result is dead (the
loop overwrites `i` before it is ever tested), then the rejection loop
runs. -/
def drawIndex (rs : List ℕ) (s : Finset ℕ) : Option (ℕ × List ℕ) :=
  match rs with
  | [] => none
  | _ :: rest => draw240 rest s

/-- The effect of a successful block body on the state: recolor vertex `i`
with the target color and insert `i` into `changed_indeces`. -/
def applyRecolor (c : Vec3) (i : ℕ) (st : AnimState) : AnimState :=
  { st with
      sphere := recolorVertex st.sphere i c,
      changed_indeces := insert i st.changed_indeces }

/-- One of the four recolor blocks of `sceneRender`: if
`changed_indeces.size() < sizeof(sphere)/sizeof(Vertex)` draw an index and
recolor it; `hasElse` is true for the fourth block only, whose `else`
branch executes `is_changing_color = false;` (main.cpp lines 313-315). -/
def recolorBlock (hasElse : Bool) (c : Vec3) (st : AnimState) (rs : List ℕ) :
    Option (AnimState × List ℕ) :=
  if st.changed_indeces.card < numVertices then
    match drawIndex rs st.changed_indeces with
    | none => none
    | some (i, rest) => some (applyRecolor c i st, rest)
  else
    some (if hasElse then { st with is_changing_color := false } else st, rs)

/-- The animation part of one `sceneRender` call (main.cpp lines 265-315):
four unrolled recolor blocks, the last carrying the `else` that clears
`is_changing_color`.  `c` is the current target color (the global `color`).
`none` means some rejection loop inside the call never terminated. -/
def sceneRenderAnim (c : Vec3) (st : AnimState) (rs : List ℕ) :
    Option (AnimState × List ℕ) :=
  match recolorBlock false c st rs with
  | none => none
  | some (st1, rs1) =>
    match recolorBlock false c st1 rs1 with
    | none => none
    | some (st2, rs2) =>
      match recolorBlock false c st2 rs2 with
      | none => none
      | some (st3, rs3) => recolorBlock true c st3 rs3

/-- The reset performed by the main loop when the selected color changes
(main.cpp lines 381-384): `is_changing_color = true; changed_indeces.clear();`. -/
def reset (st : AnimState) : AnimState :=
  { st with changed_indeces := ∅, is_changing_color := true }

/-- `n` consecutive `sceneRender` calls with a fixed target color and no
intervening reset; `none` as soon as one call never terminates. -/
def iterateTicks : ℕ → Vec3 → AnimState → List ℕ → Option (AnimState × List ℕ)
  | 0, _, st, rs => some (st, rs)
  | n + 1, c, st, rs =>
      match sceneRenderAnim c st rs with
      | none => none
      | some (st1, rs1) => iterateTicks n c st1 rs1

/-- A concrete all-white mesh used to exercise the definitions. -/
def demoMesh : ℕ → Vertex :=
  fun _ => ⟨⟨0, 0, 0⟩, ⟨1, 1, 1⟩⟩

/-- The target color red, `glm::vec3(1.0f, 0.0f, 0.0f)`. -/
def redColor : Vec3 := ⟨1, 0, 0⟩

/-- A fresh animation state over the demo mesh. -/
def demoStart : AnimState := ⟨demoMesh, ∅, true⟩

/-- A `rand()` stream for one full `sceneRender` call from the empty set:
each block consumes one dead value and then accepts 0, 1, 2, 3. -/
def demoRs : List ℕ := [0, 0, 0, 1, 0, 2, 0, 3]

/-- The state after one `sceneRender` call on `demoStart` with `demoRs`. -/
def demoEnd : AnimState :=
  ⟨recolorVertex (recolorVertex (recolorVertex
      (recolorVertex demoMesh 0 redColor) 1 redColor) 2 redColor) 3 redColor,
   insert 3 (insert 2 (insert 1 (insert 0 (∅ : Finset ℕ)))), true⟩

theorem demoTick : sceneRenderAnim redColor demoStart demoRs = some (demoEnd, []) := rfl

theorem demoIterate1 : iterateTicks 1 redColor demoStart demoRs = some (demoEnd, []) := rfl

/-!
Basic facts about the rejection draw.
-/

theorem draw240_spec : ∀ (rs : List ℕ) (s : Finset ℕ) (i : ℕ) (l : List ℕ),
    draw240 rs s = some (i, l) → i ∉ s ∧ i < 240 := by
  intro rs
  induction rs with
  | nil =>
      intro s i l h
      simp [draw240] at h
  | cons r rest ih =>
      intro s i l h
      by_cases hm : r % 240 ∈ s
      · rw [draw240, if_pos hm] at h
        exact ih s i l h
      · rw [draw240, if_neg hm] at h
        simp only [Option.some.injEq, Prod.mk.injEq] at h
        obtain ⟨hi, _⟩ := h
        subst hi
        exact ⟨hm, Nat.mod_lt _ (by norm_num)⟩

theorem draw240_none_of_cover (s : Finset ℕ) (hcov : Finset.range 240 ⊆ s) :
    ∀ rs : List ℕ, draw240 rs s = none := by
  intro rs
  induction rs with
  | nil => rfl
  | cons r rest ih =>
      have hm : r % 240 ∈ s :=
        hcov (Finset.mem_range.mpr (Nat.mod_lt _ (by norm_num)))
      rw [draw240, if_pos hm]
      exact ih

theorem drawIndex_spec (rs : List ℕ) (s : Finset ℕ) (i : ℕ) (l : List ℕ)
    (h : drawIndex rs s = some (i, l)) : i ∉ s ∧ i < 240 := by
  cases rs with
  | nil => simp [drawIndex] at h
  | cons r rest => exact draw240_spec rest s i l h

/-!
Case analysis of one recolor block: either the guard held and one fresh
index below 240 was recolored and inserted, or the set already had at least
`numVertices` elements and the state passes through (the fourth block
clearing the flag).
-/

theorem recolorBlock_cases (he : Bool) (c : Vec3) (st : AnimState) (rs : List ℕ)
    (st1 : AnimState) (rs1 : List ℕ)
    (h : recolorBlock he c st rs = some (st1, rs1)) :
    (∃ i, i < 240 ∧ i ∉ st.changed_indeces ∧
        st.changed_indeces.card < numVertices ∧ st1 = applyRecolor c i st) ∨
    (numVertices ≤ st.changed_indeces.card ∧ rs1 = rs ∧
        st1 = if he then { st with is_changing_color := false } else st) := by
  by_cases hg : st.changed_indeces.card < numVertices
  · unfold recolorBlock at h
    rw [if_pos hg] at h
    cases hd : drawIndex rs st.changed_indeces with
    | none => rw [hd] at h; cases h
    | some p =>
        obtain ⟨i, rest⟩ := p
        rw [hd] at h
        simp only [Option.some.injEq, Prod.mk.injEq] at h
        obtain ⟨hni, hlt⟩ := drawIndex_spec rs st.changed_indeces i rest hd
        exact Or.inl ⟨i, hlt, hni, hg, h.1.symm⟩
  · unfold recolorBlock at h
    rw [if_neg hg] at h
    simp only [Option.some.injEq, Prod.mk.injEq] at h
    exact Or.inr ⟨Nat.le_of_not_lt hg, h.2.symm, h.1.symm⟩

/-!
Pointwise behavior of a single recoloring.
-/

theorem recolorVertex_same (m : ℕ → Vertex) (i : ℕ) (c : Vec3) :
    recolorVertex m i c i = { m i with color := c } := by
  simp [recolorVertex, setColorAt]

theorem recolorVertex_other (m : ℕ → Vertex) (i : ℕ) (c : Vec3) (j : ℕ)
    (h : j ≠ i) : recolorVertex m i c j = m j := by
  simp [recolorVertex, setColorAt, h]

theorem recolorVertex_position (m : ℕ → Vertex) (i : ℕ) (c : Vec3) (j : ℕ) :
    (recolorVertex m i c j).position = (m j).position := by
  by_cases h : j = i
  · subst h; rw [recolorVertex_same]
  · rw [recolorVertex_other m i c j h]

/-!
A composite relation collecting everything one recolor block (and hence one
full `sceneRender` call, and any number of calls) guarantees between an
initial and a final state: set growth, cardinality monotonicity and bounds,
preservation of the below-240 range, untouched high vertices, untouched
positions, the frame condition on the mesh, and the color invariant.
-/

def TickRel (c : Vec3) (s t : AnimState) : Prop :=
  s.changed_indeces ⊆ t.changed_indeces ∧
  s.changed_indeces.card ≤ t.changed_indeces.card ∧
  (s.changed_indeces.card ≤ numVertices → t.changed_indeces.card ≤ numVertices) ∧
  (s.changed_indeces ⊆ Finset.range 240 → t.changed_indeces ⊆ Finset.range 240) ∧
  (∀ j, 240 ≤ j → t.sphere j = s.sphere j) ∧
  (∀ j, (t.sphere j).position = (s.sphere j).position) ∧
  (∀ j, t.sphere j ≠ s.sphere j →
      j ∈ t.changed_indeces ∧ j ∉ s.changed_indeces ∧ (t.sphere j).color = c) ∧
  ((∀ i ∈ s.changed_indeces, (s.sphere i).color = c) →
      ∀ i ∈ t.changed_indeces, (t.sphere i).color = c)

theorem tickRel_id {c : Vec3} {s t : AnimState}
    (hs : t.sphere = s.sphere) (hc : t.changed_indeces = s.changed_indeces) :
    TickRel c s t := by
  refine ⟨by rw [hc], by rw [hc], by rw [hc]; exact id, by rw [hc]; exact id,
    fun j _ => by rw [hs], fun j => by rw [hs],
    fun j hj => absurd (by rw [hs]) hj, ?_⟩
  intro hI i hi
  rw [hc] at hi
  rw [hs]
  exact hI i hi

theorem tickRel_trans {c : Vec3} {s t u : AnimState}
    (h1 : TickRel c s t) (h2 : TickRel c t u) : TickRel c s u := by
  obtain ⟨a1, a2, a3, a4, a5, a6, a7, a8⟩ := h1
  obtain ⟨b1, b2, b3, b4, b5, b6, b7, b8⟩ := h2
  refine ⟨a1.trans b1, a2.trans b2, fun h => b3 (a3 h), fun h => b4 (a4 h),
    fun j hj => (b5 j hj).trans (a5 j hj), fun j => (b6 j).trans (a6 j),
    ?_, fun hI => b8 (a8 hI)⟩
  intro j hj
  by_cases he : t.sphere j = s.sphere j
  · have hne : u.sphere j ≠ t.sphere j := fun hx => hj (hx.trans he)
    obtain ⟨m1, m2, m3⟩ := b7 j hne
    exact ⟨m1, fun hm => m2 (a1 hm), m3⟩
  · obtain ⟨m1, m2, m3⟩ := a7 j he
    by_cases hu : u.sphere j = t.sphere j
    · exact ⟨b1 m1, m2, by rw [hu]; exact m3⟩
    · obtain ⟨n1, _, n3⟩ := b7 j hu
      exact ⟨n1, m2, n3⟩

theorem applyRecolor_tickRel (c : Vec3) (i : ℕ) (st : AnimState)
    (hlt : i < 240) (hni : i ∉ st.changed_indeces)
    (hcard : st.changed_indeces.card < numVertices) :
    TickRel c st (applyRecolor c i st) := by
  have hins : (applyRecolor c i st).changed_indeces = insert i st.changed_indeces := rfl
  have hcardins : (insert i st.changed_indeces).card = st.changed_indeces.card + 1 :=
    Finset.card_insert_of_not_mem hni
  refine ⟨?_, ?_, ?_, ?_, ?_, ?_, ?_, ?_⟩
  · exact Finset.subset_insert i st.changed_indeces
  · rw [hins, hcardins]; exact Nat.le_succ _
  · intro _; rw [hins, hcardins]; exact hcard
  · intro hsub
    rw [hins]
    exact Finset.insert_subset (Finset.mem_range.mpr hlt) hsub
  · intro j hj
    have hne : j ≠ i := fun h => absurd hlt (by rw [← h]; exact Nat.not_lt.mpr hj)
    exact recolorVertex_other st.sphere i c j hne
  · intro j
    exact recolorVertex_position st.sphere i c j
  · intro j hj
    by_cases hne : j = i
    · subst hne
      refine ⟨Finset.mem_insert_self j _, hni, ?_⟩
      show (recolorVertex st.sphere j c j).color = c
      rw [recolorVertex_same]
    · exact absurd (recolorVertex_other st.sphere i c j hne) hj
  · intro hI j hj
    rw [hins, Finset.mem_insert] at hj
    rcases hj with hj | hj
    · show (recolorVertex st.sphere i c j).color = c
      rw [hj, recolorVertex_same]
    · have hne : j ≠ i := fun h => hni (h ▸ hj)
      show (recolorVertex st.sphere i c j).color = c
      rw [recolorVertex_other st.sphere i c j hne]
      exact hI j hj

theorem recolorBlock_tickRel (he : Bool) (c : Vec3) (st : AnimState) (rs : List ℕ)
    (st1 : AnimState) (rs1 : List ℕ)
    (h : recolorBlock he c st rs = some (st1, rs1)) : TickRel c st st1 := by
  rcases recolorBlock_cases he c st rs st1 rs1 h with
    ⟨i, hlt, hni, hg, hst⟩ | ⟨_, _, hst⟩
  · subst hst
    exact applyRecolor_tickRel c i st hlt hni hg
  · subst hst
    cases he
    · exact tickRel_id rfl rfl
    · exact tickRel_id rfl rfl

theorem tick_blocks (c : Vec3) (st : AnimState) (rs : List ℕ)
    (st4 : AnimState) (rs4 : List ℕ)
    (h : sceneRenderAnim c st rs = some (st4, rs4)) :
    ∃ st1 rs1 st2 rs2 st3 rs3,
      recolorBlock false c st rs = some (st1, rs1) ∧
      recolorBlock false c st1 rs1 = some (st2, rs2) ∧
      recolorBlock false c st2 rs2 = some (st3, rs3) ∧
      recolorBlock true c st3 rs3 = some (st4, rs4) := by
  unfold sceneRenderAnim at h
  split at h
  · cases h
  · rename_i st1 rs1 h1
    split at h
    · cases h
    · rename_i st2 rs2 h2
      split at h
      · cases h
      · rename_i st3 rs3 h3
        exact ⟨st1, rs1, st2, rs2, st3, rs3, h1, h2, h3, h⟩

theorem sceneRenderAnim_tickRel (c : Vec3) (st : AnimState) (rs : List ℕ)
    (st4 : AnimState) (rs4 : List ℕ)
    (h : sceneRenderAnim c st rs = some (st4, rs4)) : TickRel c st st4 := by
  obtain ⟨st1, rs1, st2, rs2, st3, rs3, h1, h2, h3, h4⟩ :=
    tick_blocks c st rs st4 rs4 h
  exact tickRel_trans (recolorBlock_tickRel false c st rs st1 rs1 h1)
    (tickRel_trans (recolorBlock_tickRel false c st1 rs1 st2 rs2 h2)
      (tickRel_trans (recolorBlock_tickRel false c st2 rs2 st3 rs3 h3)
        (recolorBlock_tickRel true c st3 rs3 st4 rs4 h4)))

theorem iterateTicks_tickRel (c : Vec3) :
    ∀ (n : ℕ) (st : AnimState) (rs : List ℕ) (st1 : AnimState) (rs1 : List ℕ),
      iterateTicks n c st rs = some (st1, rs1) → TickRel c st st1 := by
  intro n
  induction n with
  | zero =>
      intro st rs st1 rs1 h
      simp only [iterateTicks, Option.some.injEq, Prod.mk.injEq] at h
      exact tickRel_id (by rw [h.1]) (by rw [h.1])
  | succ k ih =>
      intro st rs st1 rs1 h
      unfold iterateTicks at h
      cases h0 : sceneRenderAnim c st rs with
      | none => rw [h0] at h; cases h
      | some p =>
        obtain ⟨stm, rsm⟩ := p
        rw [h0] at h
        exact tickRel_trans (sceneRenderAnim_tickRel c st rs stm rsm h0)
          (ih stm rsm st1 rs1 h)

/-!
Exact cardinality counting while the recolored set stays inside
`Finset.range 240`: every successful block then recolors exactly one fresh
index, so a successful `sceneRender` call adds exactly 4 and `n` successful
calls add exactly `4 * n`.
-/

theorem recolorBlock_card_sub (he : Bool) (c : Vec3) (st : AnimState)
    (rs : List ℕ) (st1 : AnimState) (rs1 : List ℕ)
    (hsub : st.changed_indeces ⊆ Finset.range 240)
    (h : recolorBlock he c st rs = some (st1, rs1)) :
    st1.changed_indeces ⊆ Finset.range 240 ∧
    st1.changed_indeces.card = st.changed_indeces.card + 1 := by
  rcases recolorBlock_cases he c st rs st1 rs1 h with
    ⟨i, hlt, hni, _, hst⟩ | ⟨hge, _, _⟩
  · subst hst
    constructor
    · exact Finset.insert_subset (Finset.mem_range.mpr hlt) hsub
    · exact Finset.card_insert_of_not_mem hni
  · exfalso
    have hle : st.changed_indeces.card ≤ 240 := by
      have := Finset.card_le_card hsub
      simpa [Finset.card_range] using this
    rw [numVertices] at hge
    omega

theorem sceneRenderAnim_card_sub (c : Vec3) (st : AnimState) (rs : List ℕ)
    (st4 : AnimState) (rs4 : List ℕ)
    (hsub : st.changed_indeces ⊆ Finset.range 240)
    (h : sceneRenderAnim c st rs = some (st4, rs4)) :
    st4.changed_indeces ⊆ Finset.range 240 ∧
    st4.changed_indeces.card = st.changed_indeces.card + 4 := by
  obtain ⟨st1, rs1, st2, rs2, st3, rs3, h1, h2, h3, h4⟩ :=
    tick_blocks c st rs st4 rs4 h
  obtain ⟨s1, c1⟩ := recolorBlock_card_sub false c st rs st1 rs1 hsub h1
  obtain ⟨s2, c2⟩ := recolorBlock_card_sub false c st1 rs1 st2 rs2 s1 h2
  obtain ⟨s3, c3⟩ := recolorBlock_card_sub false c st2 rs2 st3 rs3 s2 h3
  obtain ⟨s4, c4⟩ := recolorBlock_card_sub true c st3 rs3 st4 rs4 s3 h4
  exact ⟨s4, by omega⟩

theorem iterateTicks_card_sub (c : Vec3) :
    ∀ (n : ℕ) (st : AnimState) (rs : List ℕ) (st1 : AnimState) (rs1 : List ℕ),
      st.changed_indeces ⊆ Finset.range 240 →
      iterateTicks n c st rs = some (st1, rs1) →
      st1.changed_indeces ⊆ Finset.range 240 ∧
      st1.changed_indeces.card = st.changed_indeces.card + 4 * n := by
  intro n
  induction n with
  | zero =>
      intro st rs st1 rs1 hsub h
      simp only [iterateTicks, Option.some.injEq, Prod.mk.injEq] at h
      rw [← h.1]
      exact ⟨hsub, by omega⟩
  | succ k ih =>
      intro st rs st1 rs1 hsub h
      unfold iterateTicks at h
      cases h0 : sceneRenderAnim c st rs with
      | none => rw [h0] at h; cases h
      | some p =>
        obtain ⟨stm, rsm⟩ := p
        rw [h0] at h
        obtain ⟨hm, hc⟩ := sceneRenderAnim_card_sub c st rs stm rsm hsub h0
        obtain ⟨hm1, hc1⟩ := ih stm rsm st1 rs1 hm h
        exact ⟨hm1, by omega⟩

/-!
Claim theorems.
-/

/-- Claim C1 (refuted as stated; the recorded divergence): every index the
rejection-sampling loop of `sceneRender` can ever return is strictly below
240, because the source draws `rand() % 240` — not uniformly over the full
vertex range `[0, N)` with `N = 720` as the claim states.  The witness
evaluates the draw on the `rand()` value 300: the claimed modulo-720 draw
would return index 300, the code returns 300 % 240 = 60. -/
theorem claim1_draw_always_below_240 :
    ∀ (rs : List ℕ) (s : Finset ℕ) (i : ℕ) (l : List ℕ),
      draw240 rs s = some (i, l) → i < 240 :=
  fun rs s i l h => (draw240_spec rs s i l h).2

theorem claim1_witness :
    draw240 [300] ∅ = some (60, []) ∧ 60 < 240 :=
  ⟨rfl, claim1_draw_always_below_240 [300] ∅ 60 [] rfl⟩

/-- Claim C2 (refuted as stated; the recorded divergence): starting from an
empty recolored set, 180 `sceneRender` calls can never complete for any
random sequence.  Each successful call adds exactly 4 indices, all below
240, so after 60 successful calls the set is exactly `{0, ..., 239}`; the
61st call's guard `|set| < 720` still holds, but the rejection loop draws
only `rand() % 240` and can never leave, so no finite random stream lets
180 calls return: the size 720 with `isComplete` claimed by the spec is
unreachable. -/
theorem claim2_iterate180_from_empty_never_succeeds :
    ∀ (c : Vec3) (m : ℕ → Vertex) (b : Bool) (rs : List ℕ),
      iterateTicks 180 c ⟨m, ∅, b⟩ rs = none := by
  intro c m b rs
  cases h : iterateTicks 180 c ⟨m, ∅, b⟩ rs with
  | none => rfl
  | some p =>
      exfalso
      obtain ⟨st1, rs1⟩ := p
      obtain ⟨hsub, hcard⟩ :=
        iterateTicks_card_sub c 180 ⟨m, ∅, b⟩ rs st1 rs1 (by simp) h
      have hle : st1.changed_indeces.card ≤ 240 := by
        have := Finset.card_le_card hsub
        simpa [Finset.card_range] using this
      simp only [Finset.card_empty] at hcard
      omega

/-- Claim C3 (refuted as stated; the recorded divergence): the rejection
loop does not always terminate when the guard `|recoloredSet| < N` holds.
With `recoloredSet = {0, ..., 239}` the guard holds (240 < 720) and the set
is a strict subset of the N = 720 vertex indices, yet for every finite
`rand()` stream the loop fails to find a fresh index, because every
candidate `rand() % 240` is already in the set. -/
theorem claim3_rejection_loop_diverges_with_guard_held :
    (Finset.range 240).card < numVertices ∧
    ∀ rs : List ℕ, draw240 rs (Finset.range 240) = none :=
  ⟨by norm_num [Finset.card_range, numVertices],
   draw240_none_of_cover (Finset.range 240) (Finset.Subset.refl _)⟩

/-- Claim C7: a successful rejection draw never selects an index already in
the recolored set, so inserting the drawn index genuinely grows the set,
and under set semantics inserting an already-present index would be a
no-op. -/
theorem claim7_draw_never_selects_present :
    ∀ (rs : List ℕ) (s : Finset ℕ) (i : ℕ) (l : List ℕ),
      drawIndex rs s = some (i, l) →
      i ∉ s ∧ insert i s ≠ s ∧ ∀ j ∈ s, insert j s = s := by
  intro rs s i l h
  obtain ⟨hni, _⟩ := drawIndex_spec rs s i l h
  refine ⟨hni, ?_, fun j hj => Finset.insert_eq_self.mpr hj⟩
  intro he
  exact hni (he ▸ Finset.mem_insert_self i s)

theorem claim7_witness :
    drawIndex [0, 5] ∅ = some (5, []) ∧
    5 ∉ (∅ : Finset ℕ) ∧ insert 5 (∅ : Finset ℕ) ≠ ∅ ∧
    ∀ j ∈ (∅ : Finset ℕ), insert j (∅ : Finset ℕ) = ∅ :=
  ⟨rfl, claim7_draw_never_selects_present [0, 5] ∅ 5 [] rfl⟩

/-- Claim C4: if every index in the recolored set is below 240, then after
any number of `sceneRender` calls every inserted index is still below 240,
the set's size never exceeds 240 (in particular it is never 720, so the
completion condition is unreachable), and the vertices at indices
240..719 are never overwritten. -/
theorem claim4_indices_below_240_invariant :
    ∀ (n : ℕ) (c : Vec3) (st : AnimState) (rs : List ℕ)
      (st1 : AnimState) (rs1 : List ℕ),
      (∀ x ∈ st.changed_indeces, x < 240) →
      iterateTicks n c st rs = some (st1, rs1) →
      (∀ x ∈ st1.changed_indeces, x < 240) ∧
      st1.changed_indeces.card ≤ 240 ∧
      st1.changed_indeces.card ≠ 720 ∧
      (∀ j, 240 ≤ j → st1.sphere j = st.sphere j) := by
  intro n c st rs st1 rs1 hx h
  have hsub : st.changed_indeces ⊆ Finset.range 240 :=
    fun x hx1 => Finset.mem_range.mpr (hx x hx1)
  obtain ⟨_, _, _, R4, R5, _, _, _⟩ := iterateTicks_tickRel c n st rs st1 rs1 h
  have hsub1 := R4 hsub
  have hle : st1.changed_indeces.card ≤ 240 := by
    have := Finset.card_le_card hsub1
    simpa [Finset.card_range] using this
  exact ⟨fun x hx1 => Finset.mem_range.mp (hsub1 hx1), hle, by omega, R5⟩

theorem claim4_witness :
    (∀ x ∈ demoStart.changed_indeces, x < 240) ∧
    ((∀ x ∈ demoEnd.changed_indeces, x < 240) ∧
     demoEnd.changed_indeces.card ≤ 240 ∧
     demoEnd.changed_indeces.card ≠ 720 ∧
     (∀ j, 240 ≤ j → demoEnd.sphere j = demoStart.sphere j)) :=
  ⟨by decide,
   claim4_indices_below_240_invariant 1 redColor demoStart demoRs demoEnd []
     (by decide) demoIterate1⟩

/-- Claim C6: across any number of `sceneRender` calls the size of the
recolored set never decreases, and it never exceeds N = 720 when it started
at most 720 (the batch size of the source is the fixed 4 unrolled blocks,
hence at least 1); the reset performed on a target-color change drops the
size to zero. -/
theorem claim6_card_monotone_bounded :
    ∀ (n : ℕ) (c : Vec3) (st : AnimState) (rs : List ℕ)
      (st1 : AnimState) (rs1 : List ℕ),
      iterateTicks n c st rs = some (st1, rs1) →
      st.changed_indeces.card ≤ st1.changed_indeces.card ∧
      (st.changed_indeces.card ≤ numVertices →
        st1.changed_indeces.card ≤ numVertices) ∧
      (reset st1).changed_indeces.card = 0 := by
  intro n c st rs st1 rs1 h
  obtain ⟨_, R2, R3, _, _, _, _, _⟩ := iterateTicks_tickRel c n st rs st1 rs1 h
  exact ⟨R2, R3, by simp [reset]⟩

theorem claim6_witness :
    iterateTicks 1 redColor demoStart demoRs = some (demoEnd, []) ∧
    (demoStart.changed_indeces.card ≤ demoEnd.changed_indeces.card ∧
     (demoStart.changed_indeces.card ≤ numVertices →
       demoEnd.changed_indeces.card ≤ numVertices) ∧
     (reset demoEnd).changed_indeces.card = 0) :=
  ⟨demoIterate1,
   claim6_card_monotone_bounded 1 redColor demoStart demoRs demoEnd [] demoIterate1⟩

/-- Claim C8: one `sceneRender` call preserves the invariant that every
index in the recolored set carries the target color of the current pass,
and a vertex entry changes during the call only if its index was inserted
into the set during that same call (it was not in the set before and is in
it afterwards). -/
theorem claim8_color_invariant :
    ∀ (c : Vec3) (st : AnimState) (rs : List ℕ)
      (st1 : AnimState) (rs1 : List ℕ),
      sceneRenderAnim c st rs = some (st1, rs1) →
      ((∀ i ∈ st.changed_indeces, (st.sphere i).color = c) →
        ∀ i ∈ st1.changed_indeces, (st1.sphere i).color = c) ∧
      (∀ j, st1.sphere j ≠ st.sphere j →
        j ∈ st1.changed_indeces ∧ j ∉ st.changed_indeces) := by
  intro c st rs st1 rs1 h
  obtain ⟨_, _, _, _, _, _, R7, R8⟩ := sceneRenderAnim_tickRel c st rs st1 rs1 h
  exact ⟨R8, fun j hj => ⟨(R7 j hj).1, (R7 j hj).2.1⟩⟩

theorem claim8_witness :
    sceneRenderAnim redColor demoStart demoRs = some (demoEnd, []) ∧
    (((∀ i ∈ demoStart.changed_indeces, (demoStart.sphere i).color = redColor) →
       ∀ i ∈ demoEnd.changed_indeces, (demoEnd.sphere i).color = redColor) ∧
     (∀ j, demoEnd.sphere j ≠ demoStart.sphere j →
       j ∈ demoEnd.changed_indeces ∧ j ∉ demoStart.changed_indeces)) :=
  ⟨demoTick,
   claim8_color_invariant redColor demoStart demoRs demoEnd [] demoTick⟩

/-- Claim C9: one `sceneRender` call never modifies any vertex position; a
vertex entry differs after the call only when its index was freshly
selected in this call, in which case its color is the current target color;
and every vertex whose index is not in the final recolored set is entirely
untouched (so after a reset, vertices keep their prior-pass color until
redrawn in the new pass). -/
theorem claim9_frame_condition :
    ∀ (c : Vec3) (st : AnimState) (rs : List ℕ)
      (st1 : AnimState) (rs1 : List ℕ),
      sceneRenderAnim c st rs = some (st1, rs1) →
      (∀ j, (st1.sphere j).position = (st.sphere j).position) ∧
      (∀ j, st1.sphere j ≠ st.sphere j →
        j ∈ st1.changed_indeces ∧ j ∉ st.changed_indeces ∧
        (st1.sphere j).color = c) ∧
      (∀ j, j ∉ st1.changed_indeces → st1.sphere j = st.sphere j) := by
  intro c st rs st1 rs1 h
  obtain ⟨_, _, _, _, _, R6, R7, _⟩ := sceneRenderAnim_tickRel c st rs st1 rs1 h
  refine ⟨R6, R7, ?_⟩
  intro j hj
  by_contra hne
  exact hj (R7 j hne).1

theorem claim9_witness :
    sceneRenderAnim redColor demoStart demoRs = some (demoEnd, []) ∧
    ((∀ j, (demoEnd.sphere j).position = (demoStart.sphere j).position) ∧
     (∀ j, demoEnd.sphere j ≠ demoStart.sphere j →
       j ∈ demoEnd.changed_indeces ∧ j ∉ demoStart.changed_indeces ∧
       (demoEnd.sphere j).color = redColor) ∧
     (∀ j, j ∉ demoEnd.changed_indeces → demoEnd.sphere j = demoStart.sphere j)) :=
  ⟨demoTick,
   claim9_frame_condition redColor demoStart demoRs demoEnd [] demoTick⟩

/-- A concrete state whose recolored set is `{4, ..., 719}` (716 indices):
exactly four fresh indices below 240 remain. -/
def nearFullState : AnimState := ⟨demoMesh, Finset.Ico 4 720, true⟩

set_option maxRecDepth 100000 in
/-- Claim C5 counterexample: starting a `sceneRender` call at 716 recolored
indices with `is_changing_color = true`, the four blocks insert indices
0, 1, 2, 3, so the state first reaches size 720 (≥ N) by the fourth block's
insertion — yet the call returns with `is_changing_color` still `true`:
completion is not marked inside the call in which the state first satisfies
`|recoloredSet| ≥ N`. -/
theorem claim5_counterexample :
    nearFullState.changed_indeces.card = 716 ∧
    nearFullState.is_changing_color = true ∧
    Option.map (fun p => (p.1.changed_indeces.card, p.1.is_changing_color))
        (sceneRenderAnim redColor nearFullState demoRs) = some (720, true) := by
  refine ⟨by decide, rfl, by decide⟩

/-- Claim C5 as amended: when a `sceneRender` call begins with
`|recoloredSet| ≥ N`, all four guards are false, the fourth block's `else`
clears `is_changing_color`, and the call performs no draw and no mutation
of the mesh or the set (no batch iteration is consumed).  Completion is
however only marked in a call that begins complete: when the fourth block's
own insertion is what first reaches size N, the flag is cleared only on a
subsequent call. -/
theorem claim5_amended_complete_marks_and_stops :
    ∀ (c : Vec3) (st : AnimState) (rs : List ℕ),
      numVertices ≤ st.changed_indeces.card →
      sceneRenderAnim c st rs = some ({ st with is_changing_color := false }, rs) := by
  intro c st rs h
  have hg : ¬ st.changed_indeces.card < numVertices := Nat.not_lt.mpr h
  simp [sceneRenderAnim, recolorBlock, hg]

/-- A concrete state whose recolored set is all of `{0, ..., 719}`. -/
def fullSetState : AnimState := ⟨demoMesh, Finset.range 720, true⟩

set_option maxRecDepth 100000 in
theorem claim5_witness :
    numVertices ≤ fullSetState.changed_indeces.card ∧
    sceneRenderAnim redColor fullSetState [] =
      some ({ fullSetState with is_changing_color := false }, []) :=
  ⟨by decide,
   claim5_amended_complete_marks_and_stops redColor fullSetState [] (by decide)⟩

/-!
Independence of the animation from the `is_changing_color` flag: no guard
of `sceneRender` reads the flag, so two runs differing only in it perform
identical mesh and set mutations and consume the same `rand()` values.
-/

theorem recolorBlock_flag_cong (he : Bool) (c : Vec3) (s t : AnimState)
    (rs : List ℕ) (hs : t.sphere = s.sphere)
    (hc : t.changed_indeces = s.changed_indeces) :
    (recolorBlock he c s rs = none ∧ recolorBlock he c t rs = none) ∨
    ∃ s1 t1 l, recolorBlock he c s rs = some (s1, l) ∧
      recolorBlock he c t rs = some (t1, l) ∧
      t1.sphere = s1.sphere ∧ t1.changed_indeces = s1.changed_indeces := by
  by_cases hg : s.changed_indeces.card < numVertices
  · cases hd : drawIndex rs s.changed_indeces with
    | none =>
        left
        constructor
        · unfold recolorBlock; rw [if_pos hg, hd]
        · unfold recolorBlock; rw [hc, if_pos hg, hd]
    | some p =>
        obtain ⟨i, rest⟩ := p
        right
        refine ⟨applyRecolor c i s, applyRecolor c i t, rest, ?_, ?_, ?_, ?_⟩
        · unfold recolorBlock; rw [if_pos hg, hd]
        · unfold recolorBlock; rw [hc, if_pos hg, hd]
        · show recolorVertex t.sphere i c = recolorVertex s.sphere i c
          rw [hs]
        · show insert i t.changed_indeces = insert i s.changed_indeces
          rw [hc]
  · right
    refine ⟨if he then { s with is_changing_color := false } else s,
            if he then { t with is_changing_color := false } else t, rs, ?_, ?_, ?_, ?_⟩
    · unfold recolorBlock; rw [if_neg hg]
    · unfold recolorBlock; rw [hc, if_neg hg]
    · cases he <;> simp [hs]
    · cases he <;> simp [hc]

theorem sceneRenderAnim_flag_cong (c : Vec3) (s t : AnimState) (rs : List ℕ)
    (hs : t.sphere = s.sphere) (hc : t.changed_indeces = s.changed_indeces) :
    (sceneRenderAnim c s rs = none ∧ sceneRenderAnim c t rs = none) ∨
    ∃ s1 t1 l, sceneRenderAnim c s rs = some (s1, l) ∧
      sceneRenderAnim c t rs = some (t1, l) ∧
      t1.sphere = s1.sphere ∧ t1.changed_indeces = s1.changed_indeces := by
  rcases recolorBlock_flag_cong false c s t rs hs hc with
    ⟨hn1, hn2⟩ | ⟨s1, t1, l1, hb1, hb2, es1, ec1⟩
  · left
    constructor
    · unfold sceneRenderAnim; rw [hn1]
    · unfold sceneRenderAnim; rw [hn2]
  · rcases recolorBlock_flag_cong false c s1 t1 l1 es1 ec1 with
      ⟨hn1, hn2⟩ | ⟨s2, t2, l2, hb3, hb4, es2, ec2⟩
    · left
      constructor
      · unfold sceneRenderAnim; simp only [hb1, hn1]
      · unfold sceneRenderAnim; simp only [hb2, hn2]
    · rcases recolorBlock_flag_cong false c s2 t2 l2 es2 ec2 with
        ⟨hn1, hn2⟩ | ⟨s3, t3, l3, hb5, hb6, es3, ec3⟩
      · left
        constructor
        · unfold sceneRenderAnim; simp only [hb1, hb3, hn1]
        · unfold sceneRenderAnim; simp only [hb2, hb4, hn2]
      · rcases recolorBlock_flag_cong true c s3 t3 l3 es3 ec3 with
          ⟨hn1, hn2⟩ | ⟨s4, t4, l4, hb7, hb8, es4, ec4⟩
        · left
          constructor
          · unfold sceneRenderAnim; simp only [hb1, hb3, hb5, hn1]
          · unfold sceneRenderAnim; simp only [hb2, hb4, hb6, hn2]
        · right
          refine ⟨s4, t4, l4, ?_, ?_, es4, ec4⟩
          · unfold sceneRenderAnim; simp only [hb1, hb3, hb5, hb7]
          · unfold sceneRenderAnim; simp only [hb2, hb4, hb6, hb8]

/-- Claim C10: `is_changing_color` is write-only for the animation — two
`sceneRender` runs from states differing only in the flag either both
diverge or both succeed with identical meshes, identical recolored sets and
identical consumed `rand()` streams, so the flag never gates recoloring. -/
theorem claim10_flag_noninterference :
    ∀ (c : Vec3) (m : ℕ → Vertex) (s : Finset ℕ) (b b1 : Bool) (rs : List ℕ),
      Option.map (fun p => (p.1.sphere, p.1.changed_indeces, p.2))
          (sceneRenderAnim c ⟨m, s, b⟩ rs) =
      Option.map (fun p => (p.1.sphere, p.1.changed_indeces, p.2))
          (sceneRenderAnim c ⟨m, s, b1⟩ rs) := by
  intro c m s b b1 rs
  rcases sceneRenderAnim_flag_cong c ⟨m, s, b⟩ ⟨m, s, b1⟩ rs rfl rfl with
    ⟨h1, h2⟩ | ⟨s1, t1, l, h1, h2, es, ec⟩
  · rw [h1, h2]
  · rw [h1, h2]
    simp only [Option.map, es, ec]
